import Mathlib

/-!
Verification of mongodb/slogger (v2) against its natural-language specification.

Shallow embedding of:
  * `v2/queue/queue.go`            — bounded overflow queue
  * `v2/queued_set/queued_set.go`  — reference-counted queued set
  * `v2/slogger/async_appender/async_appender.go` — asynchronous appender
  * `v2/slogger/rolling_file_appender/rolling_file_appender.go`
    (plus `RotationTimeSlice` / `extractRotationTimeFromFilename`)
    — rotating file sink.

Go channels are modelled as FIFO lists (head = oldest element); the
`select`-with-`default` non-blocking operations succeed exactly when the
channel has room (for a send) or an element (for a receive).  Machine
integers are modelled as `Int`/`Nat` (no value in the source approaches
an overflow boundary).  Filesystem existence checks (`os.Stat`) are
modelled by an oracle `List Char → Bool`.
-/

namespace Slogger

/-! ### v2/queue/queue.go

`Queue.Enqueue` is a retry loop: a non-blocking send into the `items`
channel; on failure (channel full) a non-blocking receive evicts the
oldest item, invoking `onForcedDequeue` on it, and the loop restarts.
We model one call to `Enqueue` as a fuel-indexed loop over the state
`(items, σ)` where `σ` is whatever state the `onForcedDequeue` callback
mutates (a list of evicted items, or the `QueuedSet` map); `none` means
the loop is still running when the fuel runs out. -/

/-- One `Enqueue` call of `Queue.Enqueue` (queue.go:44-62) with `fuel`
loop iterations available.  `cap` is the channel capacity, `onFD` the
`onForcedDequeue` callback acting on callback state `σ`. -/
def enqueueGo {α σ : Type} (qcap : Nat) (onFD : α → σ → σ) (x : α) :
    Nat → List α × σ → Option (List α × σ)
  | 0, _ => none
  | fuel + 1, (items, s) =>
    if items.length < qcap then
      -- case q.items <- item succeeds
      some (items ++ [x], s)
    else
      match items with
      | i :: rest =>
        -- force a dequeue in order to make room; invoke onForcedDequeue
        enqueueGo qcap onFD x fuel (rest, onFD i s)
      | [] =>
        -- "we went from full to empty very fast. let's start over"
        enqueueGo qcap onFD x fuel (items, s)

/-- `Queue.Enqueue` under the sequential semantics: two loop iterations
always suffice when `1 ≤ cap` (proved in `enqueueGo_terminates_cap_pos`). -/
def enqueue {α σ : Type} (qcap : Nat) (onFD : α → σ → σ) (x : α)
    (st : List α × σ) : Option (List α × σ) :=
  enqueueGo qcap onFD x 2 st

/-- The callback state used when specifying the queue on its own: record
every evicted item, in eviction order (models an `onForcedDequeue` that
appends its argument to a log of evictions). -/
def recordEvict {α : Type} (i : α) (ev : List α) : List α := ev ++ [i]

/-- A sequence of `Enqueue` calls, threading the queue contents and the
eviction log. -/
def enqueueAll {α : Type} (qcap : Nat) :
    List α → List α × List α → Option (List α × List α)
  | [], st => some st
  | x :: xs, st =>
    match enqueue qcap recordEvict x st with
    | none => none
    | some st' => enqueueAll qcap xs st'

/-- `Queue.Dequeue` (queue.go:35-42): non-blocking receive; `none`
models returning `UnderflowError`. -/
def dequeue {α : Type} : List α → Option (α × List α)
  | [] => none
  | i :: rest => some (i, rest)

/-- Repeatedly call `Dequeue` until it underflows, returning the
dequeued items in order. -/
def drainAll {α : Type} : List α → List α
  | [] => []
  | i :: rest => i :: drainAll rest

/-! ### v2/queued_set/queued_set.go

Keys are modelled as `Nat` (the Go code stores `interface{}` keys; only
decidable equality is used).  The Go map `set map[interface{}]int` is
modelled as a total function `Nat → Nat`: a missing key reads as `0`
(Go's zero value) and `delete` stores `0`.  The code never stores a
non-positive count (`Add` stores `count+1`; `delete` removes the entry
when `count ≤ 1`), so presence in the map coincides with count `> 0`. -/

structure QueuedSet where
  q : List Nat
  set : Nat → Nat

/-- `QueuedSet.delete` (queued_set.go:52-61), the `onForcedDequeue`
callback of the backing queue: if the count is `≤ 1` remove the map
entry (i.e. it reads back as `0`), else decrement. -/
def qsDelete (s : Nat → Nat) (item : Nat) : Nat → Nat :=
  fun k => if k = item then (if s item ≤ 1 then 0 else s item - 1) else s k

/-- `QueuedSet.Add` (queued_set.go:36-43): read the current count,
`Enqueue` the item into the backing queue (whose eviction callback is
`qsDelete`, and may fire during this very call), then store
`count + 1` — where `count` is the value read *before* the enqueue —
and return whether that prior count was zero.  `none` models a
non-terminating backing enqueue (capacity 0). -/
def qsAdd (qcap : Nat) (st : QueuedSet) (item : Nat) : Option (QueuedSet × Bool) :=
  let count := st.set item
  match enqueueGo qcap (fun i s => qsDelete s i) item 2 (st.q, st.set) with
  | none => none
  | some (q', set') =>
    some ({ q := q',
            set := fun k => if k = item then count + 1 else set' k },
          count == 0)

/-- `QueuedSet.Contains` (queued_set.go:45-49): `set[item] != 0`. -/
def qsContains (st : QueuedSet) (item : Nat) : Bool := st.set item != 0

/-- Two `Add(0)` calls on a fresh capacity-1 `QueuedSet`. -/
def qsRunAddTwice : Option QueuedSet :=
  match qsAdd 1 ⟨[], fun _ => 0⟩ 0 with
  | none => none
  | some (st, _) =>
    match qsAdd 1 st 0 with
    | none => none
    | some (st', _) => some st'

/-- `Add(0); Add(0); Add(1)` on a fresh capacity-1 `QueuedSet`. -/
def qsRunAddAddAdd : Option QueuedSet :=
  match qsRunAddTwice with
  | none => none
  | some st =>
    match qsAdd 1 st 1 with
    | none => none
    | some (st', _) => some st'

/-! ### v2/slogger/async_appender/async_appender.go

The submission channel `appendCh chan *slogger.Log` is a FIFO list
(head = oldest).  Log records are opaque to the appender; the model
distinguishes only caller-supplied records and the synthetic record
built by `fullWarningLog`, which carries `cap(self.appendCh)` as the
argument of its message ("This AsyncAppender append channel is full.
The channelCapacity is %d.  You may want to increase it next time."). -/

inductive ALog where
  | userLog (id : Nat) : ALog
  | fullWarning (channelCapacity : Nat) : ALog
deriving DecidableEq

/-- `AsyncAppender.fullWarningLog` (async_appender.go:69-74): the WARN
record whose message mentions the channel capacity. -/
def fullWarningLog (channelCapacity : Nat) : ALog :=
  ALog.fullWarning channelCapacity

structure AppendResult where
  /-- The values sent into `appendCh` by this call, in program order. -/
  enqueued : List ALog
  /-- `true` iff the call executed a send that has to wait for the
  worker goroutine to make room (a send on a full channel with no
  `default` branch). -/
  blockedOnFull : Bool
  /-- The value returned by `Append` (always `none`, i.e. `nil`). -/
  retErr : Option Unit

/-- `AsyncAppender.Append` (async_appender.go:42-52): a
select-with-default send of `log`, which succeeds exactly when the
channel has room; if the channel is full, two plain (blocking) sends
follow: first `fullWarningLog()`, then `log`.  Always returns `nil`. -/
def asyncAppend (qcap : Nat) (ch : List ALog) (log : ALog) : AppendResult :=
  if ch.length < qcap then
    { enqueued := [log], blockedOnFull := false, retErr := none }
  else
    { enqueued := [fullWarningLog qcap, log], blockedOnFull := true, retErr := none }

/-! ### v2/slogger/rolling_file_appender/rolling_file_appender.go

Strings are modelled as `List Char`.  `fmt.Sprintf`'s `%d` on a
non-negative integer prints its decimal digits (`natToDigits`; the
wall-clock fields and serial numbers formatted here are non-negative)
and `%02d` zero-pads to width two (`pad2`). -/

/-- Decimal digits of `n`, most significant first.  `fuel`-indexed
structural recursion (`n + 1` steps always suffice, since `n / 10 < n`
for `n ≥ 10`); kept structural so that concrete instances reduce. -/
def natToDigitsCore (fuel : Nat) (n : Nat) (acc : List Char) : List Char :=
  match fuel with
  | 0 => acc
  | fuel + 1 =>
    if n < 10 then Nat.digitChar n :: acc
    else natToDigitsCore fuel (n / 10) (Nat.digitChar (n % 10) :: acc)

def natToDigits (n : Nat) : List Char := natToDigitsCore (n + 1) n []

/-- `%02d`: zero-pad to width 2 (wider values print in full). -/
def pad2 (n : Nat) : List Char :=
  if n < 10 then '0' :: natToDigits n else natToDigits n

/-- The wall-clock fields of a `time.Time` at second resolution, the
only part of a time value the rotated-filename code reads or writes. -/
structure Tm where
  year : Nat
  month : Nat
  day : Nat
  hour : Nat
  minute : Nat
  second : Nat
deriving DecidableEq

/-- `rotatedFilename` (rolling_file_appender.go:322-339):
`fmt.Sprintf("%s.%d-%02d-%02dT%02d-%02d-%02d", base, Year, Month, Day,
Hour, Minute, Second)`, plus `-%d` when `serial > 0`. -/
def rotatedFilename (baseFilename : List Char) (t : Tm) (serial : Nat) : List Char :=
  baseFilename ++ '.' ::
    (natToDigits t.year ++ '-' ::
      (pad2 t.month ++ '-' ::
        (pad2 t.day ++ 'T' ::
          (pad2 t.hour ++ '-' ::
            (pad2 t.minute ++ '-' ::
              (pad2 t.second ++
                (if 0 < serial then '-' :: natToDigits serial else [])))))))

def isDigitCh (c : Char) : Bool := decide ('0' ≤ c) && decide (c ≤ '9')

def digitVal (c : Char) : Nat := c.toNat - 48

/-- `strconv.Atoi` on a string of decimal digits. -/
def digitsVal (ds : List Char) : Nat :=
  ds.foldl (fun a c => a * 10 + digitVal c) 0

/-- Split a string at its *last* `'.'`: `some (before, after)`, or
`none` when there is no dot. -/
def splitLastDot : List Char → Option (List Char × List Char)
  | [] => none
  | c :: rest =>
    match splitLastDot rest with
    | some (a, b) => some (c :: a, b)
    | none => if c = '.' then some ([], rest) else none

/-- The anchored remainder of `rotatedTimeRegExp`
(`\.(\d+-\d\d-\d\dT\d\d-\d\d-\d\d)(-(\d+))?$`) matched against the text
after a dot, returning the two captured groups (timestamp text, serial
digits; `[]` models an empty `match[3]`).  Every match of the full
regex ends at `$`, contains no dot after its leading `\.`, and so can
only start at the *last* dot of the subject (see
`extractRotationTimeFromFilename`); and `\d+` followed by a literal
`-` matches exactly the maximal digit run (backtracking to a shorter
run would put a digit where `-` is required), so greedy `takeWhile`
is the exact semantics. -/
def regexMatchTail (tail : List Char) : Option (List Char × List Char) :=
  let ys := tail.takeWhile isDigitCh
  let r := tail.dropWhile isDigitCh
  if ys.isEmpty then none
  else
    match r with
    | '-' :: m1 :: m2 :: '-' :: d1 :: d2 :: 'T' :: h1 :: h2 ::
        '-' :: n1 :: n2 :: '-' :: s1 :: s2 :: rest =>
      if isDigitCh m1 && isDigitCh m2 && isDigitCh d1 && isDigitCh d2 &&
         isDigitCh h1 && isDigitCh h2 && isDigitCh n1 && isDigitCh n2 &&
         isDigitCh s1 && isDigitCh s2 then
        let group1 := ys ++ '-' :: m1 :: m2 :: '-' :: d1 :: d2 :: 'T' :: h1 :: h2 ::
          '-' :: n1 :: n2 :: '-' :: s1 :: s2 :: []
        match rest with
        | [] => some (group1, [])
        | '-' :: ds =>
          if ds.isEmpty then none
          else if ds.all isDigitCh then some (group1, ds) else none
        | _ => none
      else none
    | _ => none

def isLeap (y : Nat) : Bool :=
  y % 4 = 0 && (y % 100 != 0 || y % 400 = 0)

/-- Days in a month (Go `daysIn`), with the Gregorian leap rule. -/
def daysIn (year month : Nat) : Nat :=
  if month = 2 then (if isLeap year then 29 else 28)
  else if month = 4 ∨ month = 6 ∨ month = 9 ∨ month = 11 then 30
  else 31

/-- `time.Parse("2006-01-02T15-04-05", s)`: the year consumes exactly
four digits, every other field exactly two; separators must match the
layout; the whole value must be consumed; fields are range-checked
(month 1–12, day 1–`daysIn`, hour < 24, minute/second < 60). -/
def timeParse (s : List Char) : Option Tm :=
  match s with
  | y1 :: y2 :: y3 :: y4 :: '-' :: m1 :: m2 :: '-' :: d1 :: d2 :: 'T' ::
      h1 :: h2 :: '-' :: n1 :: n2 :: '-' :: s1 :: s2 :: [] =>
    if isDigitCh y1 && isDigitCh y2 && isDigitCh y3 && isDigitCh y4 &&
       isDigitCh m1 && isDigitCh m2 && isDigitCh d1 && isDigitCh d2 &&
       isDigitCh h1 && isDigitCh h2 && isDigitCh n1 && isDigitCh n2 &&
       isDigitCh s1 && isDigitCh s2 then
      let year := digitsVal [y1, y2, y3, y4]
      let month := digitsVal [m1, m2]
      let day := digitsVal [d1, d2]
      let hour := digitsVal [h1, h2]
      let minute := digitsVal [n1, n2]
      let second := digitsVal [s1, s2]
      if 1 ≤ month ∧ month ≤ 12 ∧ 1 ≤ day ∧ day ≤ daysIn year month ∧
         hour ≤ 23 ∧ minute ≤ 59 ∧ second ≤ 59 then
        some ⟨year, month, day, hour, minute, second⟩
      else none
    else none
  | _ => none

/-- `extractRotationTimeFromFilename` (companion file, lines 414-447):
find the regex match (necessarily at the last dot), `time.Parse` the
captured timestamp, `strconv.Atoi` the captured serial (0 when the
group is empty).  Returns the recovered wall-clock fields and serial. -/
def extractRotationTimeFromFilename (filename : List Char) : Option (Tm × Nat) :=
  match splitLastDot filename with
  | none => none
  | some (_, tail) =>
    match regexMatchTail tail with
    | none => none
    | some (group1, serialDigits) =>
      match timeParse group1 with
      | none => none
      | some t => some (t, digitsVal serialDigits)

/-! #### Pruning of rotated logs -/

/-- `RotationTime` (companion file): the rotation instant (`time.Time`,
modelled as an absolute instant — ordering is all `Less` uses), the
serial, and the filename. -/
structure RotationTime where
  time : Int
  serial : Nat
  filename : List Char

/-- `RotationTimeSlice.Less` (companion file, lines 402-408): compare
instants; ties on the instant are broken by serial. -/
def lessRT (a b : RotationTime) : Bool :=
  if a.time = b.time then decide (a.serial < b.serial)
  else decide (a.time < b.time)

/-- Non-strict companion of `lessRT`: the sortedness predicate
satisfied by the output of `sort.Sort` (no later element is `Less`
than an earlier one). -/
def rtLE (a b : RotationTime) : Prop := lessRT b a = false

instance rtLE_decidable : DecidableRel rtLE := by
  intro a b
  unfold rtLE
  infer_instance

/-- `RollingFileAppender.removeMaxRotatedLogs`
(rolling_file_appender.go:382-409), restricted to its decision logic:
which rotated files get deleted.  `sort.Sort` produces a sorted
permutation of the slice (modelled by insertion sort) and the first
`len - maxRotatedLogs` entries are removed. -/
def removeMaxRotatedLogs (maxRotatedLogs : Int) (rotationTimes : List RotationTime) :
    List RotationTime :=
  if maxRotatedLogs ≤ 0 then []
  else
    let numLogsToDelete : Int := (rotationTimes.length : Int) - maxRotatedLogs
    if numLogsToDelete ≤ 0 then []
    else (List.insertionSort rtLE rotationTimes).take numLogsToDelete.toNat

/-! #### The appender state machine -/

/-- The `file *os.File` field: `nil`, an open handle, or a handle that
has been `Close()`d (the pointer stays non-nil after `rotate` closes
it). -/
inductive FileStatus where
  | noFile : FileStatus
  | openFile : FileStatus
  | closedFile : FileStatus
deriving DecidableEq

inductive RFAErr where
  | closeError : RFAErr
  | renameError : RFAErr
  | openError : RFAErr
  | noFileError : RFAErr
  | writeError : RFAErr
deriving DecidableEq

/-- The mutable fields of `RollingFileAppender` the verified operations
touch.  `logStartTime` is `state.LogStartTime` in nanoseconds (`none`
models a nil `state` pointer; the struct documents it as always
non-nil).  `maxDuration` is a `time.Duration` in nanoseconds. -/
structure RFAState where
  maxFileSize : Int
  maxDuration : Int
  absPath : List Char
  file : FileStatus
  curFileSize : Int
  logStartTime : Option Int

def MAX_ROTATE_SERIAL_NUM : Nat := 1000000000

/-- The serial-search loop of `renameLogFile`
(rolling_file_appender.go:419-429): starting from `serial`, walk up
while `os.Stat` (the oracle `fs`) reports the candidate name exists;
fail (`RenameError`, modelled `none`) as soon as the serial exceeds
`MAX_ROTATE_SERIAL_NUM`. -/
def findRotatedName (fs : List Char → Bool) (base : List Char) (t : Tm)
    (serial : Nat) : Option (List Char) :=
  if MAX_ROTATE_SERIAL_NUM < serial then none
  else
    let newFilename := rotatedFilename base t serial
    if fs newFilename then findRotatedName fs base t (serial + 1)
    else some newFilename
termination_by MAX_ROTATE_SERIAL_NUM + 1 - serial
decreasing_by simp_wf; omega

/-- `renameLogFile` (rolling_file_appender.go:413-437): find a free
rotated name (serial search from 0) and rename the active file to it;
the rename itself is modelled as succeeding.  `none` is the terminal
`RenameError` from serial exhaustion. -/
def renameLogFile (fs : List Char → Bool) (absPath : List Char) (nowTm : Tm) :
    Option (List Char) :=
  findRotatedName fs absPath nowTm 0

/-- `RollingFileAppender.rotate` (rolling_file_appender.go:519-557).
Order matters: the current handle is closed and `curFileSize` zeroed
*before* the rename; a rename failure returns with the handle closed.
On success: a fresh file is created, the header logged (it does not
touch `curFileSize`), and the start time re-stamped.  Disk-side
compression/pruning are modelled separately
(`removeMaxRotatedLogs`).  `os.Close` on an already-closed handle
errors (`CloseError`); close/create/state-write on healthy handles are
modelled as succeeding. -/
def rotate (fs : List Char → Bool) (st : RFAState) (nowNanos : Int) (nowTm : Tm) :
    RFAState × Option RFAErr :=
  match st.file with
  | FileStatus.closedFile => (st, some RFAErr.closeError)
  | _ =>
    let st1 : RFAState :=
      { st with file := if st.file = FileStatus.noFile then st.file
                        else FileStatus.closedFile,
                curFileSize := 0 }
    match renameLogFile fs st1.absPath nowTm with
    | none => (st1, some RFAErr.renameError)
    | some _ =>
      ({ st1 with file := FileStatus.openFile, logStartTime := some nowNanos },
       none)

/-- `appendSansSizeTracking` (rolling_file_appender.go:341-354):
`NoFileError` when `file == nil`; a `WriteError` when writing to a
closed handle; otherwise the formatted record (of externally-given
length `recLen`) is written in full. -/
def appendSansSizeTracking (st : RFAState) (recLen : Nat) : Nat × Option RFAErr :=
  match st.file with
  | FileStatus.noFile => (0, some RFAErr.noFileError)
  | FileStatus.closedFile => (0, some RFAErr.writeError)
  | FileStatus.openFile => (recLen, none)

/-- The rotation trigger of `Append` (rolling_file_appender.go:234-237):
`(maxFileSize > 0 && curFileSize > maxFileSize) || (maxDuration > 0 &&
state != nil && time.Since(state.LogStartTime) > maxDuration)`. -/
def shouldRotate (st : RFAState) (nowNanos : Int) : Bool :=
  (decide (0 < st.maxFileSize) && decide (st.maxFileSize < st.curFileSize)) ||
  (decide (0 < st.maxDuration) &&
    (match st.logStartTime with
     | some t0 => decide (st.maxDuration < nowNanos - t0)
     | none => false))

structure AppendOut where
  st : RFAState
  err : Option RFAErr
  /-- whether `self.rotate()` was invoked. -/
  rotated : Bool

/-- `RollingFileAppender.Append` (rolling_file_appender.go:223-242):
write, add the bytes written to `curFileSize`, return early on a write
error, otherwise rotate exactly when the trigger condition holds. -/
def rfaAppend (fs : List Char → Bool) (st : RFAState) (nowNanos : Int)
    (nowTm : Tm) (recLen : Nat) : AppendOut :=
  let n := (appendSansSizeTracking st recLen).1
  let werr := (appendSansSizeTracking st recLen).2
  let st1 : RFAState := { st with curFileSize := st.curFileSize + n }
  match werr with
  | some e => ⟨st1, some e, false⟩
  | none =>
    if shouldRotate st1 nowNanos then
      let r := rotate fs st1 nowNanos nowTm
      ⟨r.1, r.2, true⟩
    else ⟨st1, none, false⟩

/-! #### Concrete states used by witnesses and counterexamples -/

def c8files : List RotationTime :=
  [⟨3, 0, ['a']⟩, ⟨1, 0, ['b']⟩, ⟨1, 2, ['c']⟩, ⟨2, 0, ['d']⟩]

def c5Tm : Tm := ⟨2020, 1, 2, 3, 4, 5⟩

/-- An appender with no size/duration limits, an open handle, and a
stamped start time. -/
def c5St : RFAState :=
  { maxFileSize := 0, maxDuration := 0, absPath := [], file := FileStatus.openFile,
    curFileSize := 0, logStartTime := some 0 }

/-- An appender with `maxFileSize = 10` and 8 bytes already written. -/
def c2St : RFAState :=
  { maxFileSize := 10, maxDuration := 0, absPath := [], file := FileStatus.openFile,
    curFileSize := 8, logStartTime := some 0 }

end Slogger

namespace Slogger

/-! ### Theorems -/

theorem enqueueGo_spec_lt {α σ : Type} (qcap : Nat) (onFD : α → σ → σ) (x : α)
    (items : List α) (s : σ) (h : items.length < qcap) :
    enqueueGo qcap onFD x 2 (items, s) = some (items ++ [x], s) := by
  simp [enqueueGo, h]

theorem enqueueGo_spec_full {α σ : Type} (qcap : Nat) (onFD : α → σ → σ) (x : α)
    (i : α) (rest : List α) (s : σ) (h : ¬ (i :: rest).length < qcap)
    (h2 : rest.length < qcap) :
    enqueueGo qcap onFD x 2 (i :: rest, s) = some (rest ++ [x], onFD i s) := by
  have h' : ¬ rest.length + 1 < qcap := by simpa using h
  simp [enqueueGo, h', h2]

/-- Generalized induction for `enqueueAll`: starting from queue contents
`items` (at most `qcap` of them) and eviction log `ev`, feeding `xs`
leaves the last `qcap` of `items ++ xs` in the queue and evicts the
rest, oldest first. -/
theorem enqueueAll_spec {α : Type} (qcap : Nat) (hcap : 1 ≤ qcap) :
    ∀ (xs items ev : List α), items.length ≤ qcap →
      enqueueAll qcap xs (items, ev) =
        some ((items ++ xs).drop (items.length + xs.length - qcap),
              ev ++ (items ++ xs).take (items.length + xs.length - qcap)) := by
  intro xs
  induction xs with
  | nil =>
    intro items ev hlen
    have h0 : items.length - qcap = 0 := by omega
    simp [enqueueAll, h0]
  | cons x xs ih =>
    intro items ev hlen
    by_cases hfull : items.length < qcap
    · have hstep := enqueueGo_spec_lt qcap (recordEvict (α := α)) x items ev hfull
      have hlen' : (items ++ [x]).length ≤ qcap := by simp; omega
      have := ih (items ++ [x]) ev hlen'
      simp only [enqueueAll, enqueue, hstep, this, Option.some.injEq, Prod.mk.injEq]
      constructor
      · rw [List.append_assoc]
        congr 1
        simp
        omega
      · rw [List.append_assoc]
        congr 2
        simp
        omega
    · -- queue is full: items.length = qcap ≥ 1, so items is nonempty
      have heq : items.length = qcap := by omega
      cases items with
      | nil => simp at heq; omega
      | cons i rest =>
        have h2 : rest.length < qcap := by simp at heq; omega
        have hstep := enqueueGo_spec_full qcap (recordEvict (α := α)) x i rest ev hfull h2
        have hlen' : (rest ++ [x]).length ≤ qcap := by simp; omega
        have := ih (rest ++ [x]) (recordEvict i ev) hlen'
        simp only [enqueueAll, enqueue, hstep, this, Option.some.injEq, Prod.mk.injEq]
        have harith2 : (i :: rest).length + (x :: xs).length - qcap
            = ((rest ++ [x]).length + xs.length - qcap) + 1 := by
          simp at heq ⊢; omega
        constructor
        · rw [harith2]
          rw [show (i :: rest) ++ x :: xs = i :: (rest ++ [x] ++ xs) by simp]
          rw [List.drop_succ_cons]
        · rw [harith2]
          rw [show (i :: rest) ++ x :: xs = i :: (rest ++ [x] ++ xs) by simp]
          rw [List.take_succ_cons]
          simp [recordEvict]

theorem drainAll_id {α : Type} : ∀ l : List α, drainAll l = l
  | [] => rfl
  | _ :: rest => by simp [drainAll, drainAll_id rest]

/-- C1: for every capacity `C ≥ 1` and sequence `xs` of `N > C`
enqueues into an initially empty queue, exactly `N − C` forced
evictions occur; the eviction callback receives exactly the first
`N − C` enqueued items in arrival order; and draining by repeated
`Dequeue` until underflow yields exactly the last `C` enqueued items
in arrival order. -/
theorem c1_queue_eviction_drain {α : Type} (C : Nat) (xs : List α)
    (hC : 1 ≤ C) (hN : C < xs.length) :
    enqueueAll C xs ([], []) =
      some (xs.drop (xs.length - C), xs.take (xs.length - C)) ∧
    (xs.take (xs.length - C)).length = xs.length - C ∧
    drainAll (xs.drop (xs.length - C)) = xs.drop (xs.length - C) := by
  refine ⟨?_, ?_, drainAll_id _⟩
  · have := enqueueAll_spec C hC xs [] [] (by simp)
    simpa using this
  · rw [List.length_take]
    omega

/-- Witness for C1 at a concrete input: capacity 2, five enqueues. -/
theorem c1_witness :
    enqueueAll 2 [10, 20, 30, 40, 50] ([], []) =
      some ([40, 50], [10, 20, 30]) ∧
    drainAll ([40, 50] : List Nat) = [40, 50] := by
  have h := c1_queue_eviction_drain 2 [10, 20, 30, 40, 50]
    (by decide) (by decide)
  exact ⟨by simpa using h.1, by simpa using h.2.2⟩

/-- C10: with capacity `≥ 1` (and the invariant that the queue never
holds more than its capacity), the `Enqueue` retry loop finishes within
two iterations; with capacity `0` (a queue built by `New(0, f)` starts
and stays empty) the loop never finishes: both the insert and the
forced-dequeue branches fail on every iteration. -/
theorem c10_enqueue_termination {α σ : Type} :
    (∀ (qcap : Nat) (onFD : α → σ → σ) (x : α) (items : List α) (s : σ),
      1 ≤ qcap → items.length ≤ qcap →
      (enqueueGo qcap onFD x 2 (items, s)).isSome) ∧
    (∀ (onFD : α → σ → σ) (x : α) (s : σ) (fuel : Nat),
      enqueueGo 0 onFD x fuel ([], s) = none) := by
  constructor
  · intro qcap onFD x items s hcap hlen
    by_cases hlt : items.length < qcap
    · rw [enqueueGo_spec_lt qcap onFD x items s hlt]
      rfl
    · cases items with
      | nil => simp at hlt; omega
      | cons i rest =>
        have h2 : rest.length < qcap := by simp at hlen ⊢; omega
        rw [enqueueGo_spec_full qcap onFD x i rest s hlt h2]
        rfl
  · intro onFD x s fuel
    induction fuel with
    | zero => rfl
    | succ fuel ih => simpa [enqueueGo] using ih

theorem lessRT_false_iff (a b : RotationTime) :
    lessRT a b = false ↔ (b.time < a.time ∨ (a.time = b.time ∧ b.serial ≤ a.serial)) := by
  unfold lessRT
  by_cases h : a.time = b.time
  all_goals simp [h]
  all_goals omega

theorem rtLE_total (a b : RotationTime) : rtLE a b ∨ rtLE b a := by
  unfold rtLE
  rw [lessRT_false_iff, lessRT_false_iff]
  omega

theorem rtLE_trans (a b c : RotationTime) : rtLE a b → rtLE b c → rtLE a c := by
  unfold rtLE
  rw [lessRT_false_iff, lessRT_false_iff, lessRT_false_iff]
  omega

/-- C3: the claimed invariant — count equals the number of live
occurrences in the backing queue — fails on the code exactly in the
self-eviction case the claim singles out.  With capacity 1, after
`Add(0); Add(0)` the map records count 2 for key 0 while the queue
holds a single live occurrence: the second `Add` read the count before
its enqueue evicted the first occurrence (decrementing the map), then
overwrote the map with the stale `count + 1`.  A further `Add(1)`
evicts key 0 entirely, yet `Contains(0)` stays `true` with zero live
occurrences. -/
theorem c3_invariant_violation :
    qsRunAddTwice.map (fun st => (st.set 0, st.q.count 0)) = some (2, 1) ∧
    qsRunAddAddAdd.map (fun st => (qsContains st 0, st.q.count 0)) =
      some (true, 0) := by
  constructor <;> rfl

/-- C7: `Add` returns `true` iff the key's count was zero immediately
before the call, and `Contains` returns `true` iff the key's current
count is positive. -/
theorem c7_add_contains (qcap : Nat) (st st' : QueuedSet) (k : Nat) (b : Bool)
    (h : qsAdd qcap st k = some (st', b)) :
    (b = true ↔ st.set k = 0) ∧ (qsContains st k = true ↔ 0 < st.set k) := by
  constructor
  · unfold qsAdd at h
    cases henq : enqueueGo qcap (fun i s => qsDelete s i) k 2 (st.q, st.set) with
    | none => rw [henq] at h; exact absurd h (by simp)
    | some p =>
      rw [henq] at h
      cases p with
      | mk q' set' =>
        simp only [Option.some.injEq, Prod.mk.injEq] at h
        rw [← h.2]
        simp [Nat.beq_eq_true_eq]
  · unfold qsContains
    simp [Nat.pos_iff_ne_zero]

/-- Witness for C7 at a concrete input. -/
theorem c7_witness :
    ((true : Bool) = true ↔ (0 : Nat) = 0) ∧
    (qsContains ⟨[], fun _ => 0⟩ 5 = true ↔ 0 < 0) := by
  have h := c7_add_contains 1 ⟨[], fun _ => 0⟩ ⟨[5], fun k => if k = 5 then 1 else 0⟩
    5 true (by rfl)
  exact ⟨h.1, h.2⟩

/-- C4: `AsyncAppender.Append` always returns `nil`; when the channel
has room the caller's record is sent directly; when the channel is
full at the moment of submission, the synthetic warning record
(carrying the channel capacity) is enqueued immediately ahead of the
caller's record, so the caller's record is never dropped. -/
theorem c4_append_returns_nil_never_drops (qcap : Nat) (ch : List ALog) (log : ALog) :
    (asyncAppend qcap ch log).retErr = none ∧
    (ch.length < qcap → (asyncAppend qcap ch log).enqueued = [log]) ∧
    (¬ ch.length < qcap →
      (asyncAppend qcap ch log).enqueued = [fullWarningLog qcap, log]) := by
  unfold asyncAppend
  by_cases h : ch.length < qcap <;> simp [h]

/-- Witness for C4 at a concrete input: a full capacity-1 channel. -/
theorem c4_witness :
    (asyncAppend 1 [ALog.userLog 0] (ALog.userLog 1)).retErr = none ∧
    (asyncAppend 1 [ALog.userLog 0] (ALog.userLog 1)).enqueued =
      [fullWarningLog 1, ALog.userLog 1] := by
  have h := c4_append_returns_nil_never_drops 1 [ALog.userLog 0] (ALog.userLog 1)
  exact ⟨h.1, h.2.2 (by decide)⟩

/-- C6 as stated is false: on a full channel, `Append` executes a send
with no `default` branch, which waits for the worker to drain the
queue.  Concrete input: capacity 1, one record already queued. -/
theorem c6_counterexample :
    (asyncAppend 1 [ALog.userLog 0] (ALog.userLog 1)).blockedOnFull = true := by
  rfl

/-- C6 amended: `Append` returns without waiting for the worker iff
the channel has free space at submission; when the channel is full it
blocks (on the sends of the warning record and the caller's record)
until the worker drains the queue. -/
theorem c6_amended_blocks_iff_full (qcap : Nat) (ch : List ALog) (log : ALog) :
    (asyncAppend qcap ch log).blockedOnFull = decide (qcap ≤ ch.length) := by
  unfold asyncAppend
  by_cases h : ch.length < qcap
  · have h2 : ¬ qcap ≤ ch.length := by omega
    simp [h, h2]
  · have h2 : qcap ≤ ch.length := by omega
    simp [h, h2]

/-- C8: with `0 < maxRotatedLogs < R` rotated files, pruning removes
exactly `R − M` descriptors: the count is `R − M`, every removed file
is one of the rotated descriptors (so never the active file, which is
not a descriptor), removed and kept files together are exactly the
original descriptors, and every removed file precedes every kept file
in the ascending `(timestamp, serial)` order (ties on the timestamp
broken by the smaller serial, per `lessRT`).  With `M ≤ 0` or
`R ≤ M`, nothing is removed. -/
theorem c8_prune_oldest (M : Int) (files : List RotationTime) :
    (M ≤ 0 → removeMaxRotatedLogs M files = []) ∧
    ((files.length : Int) ≤ M → removeMaxRotatedLogs M files = []) ∧
    (0 < M → M < (files.length : Int) →
      (removeMaxRotatedLogs M files).length = files.length - M.toNat ∧
      (∀ x ∈ removeMaxRotatedLogs M files, x ∈ files) ∧
      (removeMaxRotatedLogs M files ++
        (List.insertionSort rtLE files).drop (((files.length : Int) - M).toNat)).Perm
        files ∧
      (∀ x ∈ removeMaxRotatedLogs M files,
        ∀ y ∈ (List.insertionSort rtLE files).drop (((files.length : Int) - M).toNat),
          rtLE x y)) := by
  refine ⟨?_, ?_, ?_⟩
  · intro h
    simp [removeMaxRotatedLogs, h]
  · intro h
    by_cases hM : M ≤ 0
    · simp [removeMaxRotatedLogs, hM]
    · have h2 : (files.length : Int) - M ≤ 0 := by omega
      simp only [removeMaxRotatedLogs, if_neg hM, if_pos h2]
  · intro hM hR
    have hMneg : ¬ M ≤ 0 := by omega
    have hd : ¬ (files.length : Int) - M ≤ 0 := by omega
    have hperm := List.perm_insertionSort rtLE files
    have hlen : (List.insertionSort rtLE files).length = files.length :=
      hperm.length_eq
    have hite : removeMaxRotatedLogs M files =
        (List.insertionSort rtLE files).take (((files.length : Int) - M).toNat) := by
      simp only [removeMaxRotatedLogs, if_neg hMneg, if_neg hd]
    rw [hite]
    refine ⟨?_, ?_, ?_, ?_⟩
    · rw [List.length_take, hlen, Nat.min_eq_left (by omega)]
      omega
    · intro x hx
      exact hperm.mem_iff.mp (List.take_subset _ _ hx)
    · rw [List.take_append_drop]
      exact hperm
    · have hsorted := @List.sorted_insertionSort RotationTime rtLE
        rtLE_decidable ⟨rtLE_total⟩ ⟨rtLE_trans⟩ files
      have hp : List.Pairwise rtLE
          ((List.insertionSort rtLE files).take (((files.length : Int) - M).toNat) ++
           (List.insertionSort rtLE files).drop (((files.length : Int) - M).toNat)) := by
        rw [List.take_append_drop]
        exact hsorted
      exact fun x hx y hy => (List.pairwise_append.mp hp).2.2 x hx y hy

/-- Witness for C8 at a concrete input: four descriptors, retention 1. -/
theorem c8_witness :
    (removeMaxRotatedLogs 1 c8files).length = 3 ∧
    (∀ x ∈ removeMaxRotatedLogs 1 c8files, x ∈ c8files) := by
  have h := (c8_prune_oldest 1 c8files).2.2 (by decide) (by decide)
  exact ⟨by simpa using h.1, h.2.1⟩

/-- If the first candidate rotated name (serial 0) is free, the serial
search returns it at once. -/
theorem findRotatedName_free (fs : List Char → Bool) (base : List Char) (t : Tm)
    (h : fs (rotatedFilename base t 0) = false) :
    renameLogFile fs base t = some (rotatedFilename base t 0) := by
  unfold renameLogFile
  rw [findRotatedName]
  simp [MAX_ROTATE_SERIAL_NUM, h]

/-- `rotate` on an open handle, when the serial-0 candidate name is
free: close, zero the size counter, rename, recreate, re-stamp. -/
theorem rotate_success (fs : List Char → Bool) (st : RFAState)
    (nowNanos : Int) (nowTm : Tm)
    (hfile : st.file = FileStatus.openFile)
    (hfree : fs (rotatedFilename st.absPath nowTm 0) = false) :
    rotate fs st nowNanos nowTm =
      ({ st with file := FileStatus.openFile, curFileSize := 0,
                 logStartTime := some nowNanos }, none) := by
  unfold rotate
  rw [hfile]
  simp only []
  rw [show ({ st with
      file := (if st.file = FileStatus.noFile then st.file else FileStatus.closedFile),
      curFileSize := 0 } : RFAState).absPath = st.absPath from rfl]
  rw [findRotatedName_free fs st.absPath nowTm hfree]

/-- If every name is taken, the serial search fails for every starting
serial (strong induction on the remaining search space). -/
theorem findRotatedName_allTaken (fs : List Char → Bool) (base : List Char)
    (t : Tm) (hall : ∀ nm, fs nm = true) :
    ∀ (k serial : Nat), MAX_ROTATE_SERIAL_NUM + 1 - serial ≤ k →
      findRotatedName fs base t serial = none := by
  intro k
  induction k with
  | zero =>
    intro serial hs
    rw [findRotatedName]
    rw [if_pos (by omega : MAX_ROTATE_SERIAL_NUM < serial)]
  | succ k ih =>
    intro serial hs
    rw [findRotatedName]
    by_cases hgt : MAX_ROTATE_SERIAL_NUM < serial
    · rw [if_pos hgt]
    · rw [if_neg hgt]
      simp only [hall (rotatedFilename base t serial), if_pos]
      exact ih (serial + 1) (by omega)

/-- `rotate` on an open handle when every candidate name exists on
disk: the handle is closed and the size counter zeroed, then the
serial search exhausts and the rename fails terminally. -/
theorem rotate_allTaken (fs : List Char → Bool) (st : RFAState)
    (nowNanos : Int) (nowTm : Tm)
    (hall : ∀ nm, fs nm = true) (hfile : st.file = FileStatus.openFile) :
    rotate fs st nowNanos nowTm =
      ({ st with file := FileStatus.closedFile, curFileSize := 0 },
       some RFAErr.renameError) := by
  unfold rotate
  rw [hfile]
  simp only []
  have hnone : renameLogFile fs
      ({ st with
        file := (if st.file = FileStatus.noFile then st.file else FileStatus.closedFile),
        curFileSize := 0 } : RFAState).absPath nowTm = none := by
    unfold renameLogFile
    exact findRotatedName_allTaken fs _ nowTm hall (MAX_ROTATE_SERIAL_NUM + 1) 0
      (by omega)
  rw [hnone]
  simp

/-- C2: `Append` on a healthy appender (open handle, non-nil state)
adds the bytes written to `curFileSize` and then invokes `rotate` if
and only if `(maxFileSize > 0 ∧ curFileSize > maxFileSize) ∨
(maxDuration > 0 ∧ now − logStartTime > maxDuration)` (evaluated on
the updated size); a non-positive `maxFileSize` or `maxDuration`
disables the corresponding disjunct; rotating resets the size counter
to 0 and the duration epoch to `now`, while not rotating leaves the
accumulated size and the old epoch. -/
theorem c2_append_rotation_trigger (fs : List Char → Bool) (st : RFAState)
    (nowNanos : Int) (nowTm : Tm) (recLen : Nat) (e : Int)
    (hfile : st.file = FileStatus.openFile)
    (hstate : st.logStartTime = some e)
    (hfree : fs (rotatedFilename st.absPath nowTm 0) = false) :
    ((rfaAppend fs st nowNanos nowTm recLen).rotated = true ↔
      ((0 < st.maxFileSize ∧ st.maxFileSize < st.curFileSize + recLen) ∨
       (0 < st.maxDuration ∧ st.maxDuration < nowNanos - e))) ∧
    ((rfaAppend fs st nowNanos nowTm recLen).rotated = true →
      (rfaAppend fs st nowNanos nowTm recLen).st.curFileSize = 0 ∧
      (rfaAppend fs st nowNanos nowTm recLen).st.logStartTime = some nowNanos ∧
      (rfaAppend fs st nowNanos nowTm recLen).err = none) ∧
    ((rfaAppend fs st nowNanos nowTm recLen).rotated = false →
      (rfaAppend fs st nowNanos nowTm recLen).st.curFileSize =
        st.curFileSize + recLen ∧
      (rfaAppend fs st nowNanos nowTm recLen).st.logStartTime = some e ∧
      (rfaAppend fs st nowNanos nowTm recLen).err = none) ∧
    (st.maxFileSize ≤ 0 →
      ((rfaAppend fs st nowNanos nowTm recLen).rotated = true ↔
        (0 < st.maxDuration ∧ st.maxDuration < nowNanos - e))) ∧
    (st.maxDuration ≤ 0 →
      ((rfaAppend fs st nowNanos nowTm recLen).rotated = true ↔
        (0 < st.maxFileSize ∧ st.maxFileSize < st.curFileSize + recLen))) := by
  have hsize : ({ st with curFileSize := st.curFileSize + (recLen : Int) }
      : RFAState).file = FileStatus.openFile := hfile
  have hshould : shouldRotate
      ({ st with curFileSize := st.curFileSize + (recLen : Int) }) nowNanos = true ↔
      ((0 < st.maxFileSize ∧ st.maxFileSize < st.curFileSize + recLen) ∨
       (0 < st.maxDuration ∧ st.maxDuration < nowNanos - e)) := by
    simp [shouldRotate, hstate]
  have happ : rfaAppend fs st nowNanos nowTm recLen =
      (if shouldRotate ({ st with curFileSize := st.curFileSize + (recLen : Int) })
          nowNanos then
        let r := rotate fs ({ st with curFileSize := st.curFileSize + (recLen : Int) })
          nowNanos nowTm
        ⟨r.1, r.2, true⟩
      else ⟨{ st with curFileSize := st.curFileSize + (recLen : Int) }, none, false⟩) := by
    unfold rfaAppend
    rw [show appendSansSizeTracking st recLen = ((recLen : Nat), none) by
      unfold appendSansSizeTracking; rw [hfile]]
  by_cases hs : shouldRotate
      ({ st with curFileSize := st.curFileSize + (recLen : Int) }) nowNanos
  · rw [happ, if_pos hs]
    rw [rotate_success fs _ nowNanos nowTm hsize hfree]
    refine ⟨by simpa [hshould] using hs, fun _ => ⟨rfl, rfl, rfl⟩,
      fun hcontra => by simp at hcontra, ?_, ?_⟩
    · intro hmf
      have := hshould.mp hs
      constructor
      · intro _
        rcases this with h1 | h2
        · omega
        · exact h2
      · intro _
        rfl
    · intro hmd
      have := hshould.mp hs
      constructor
      · intro _
        rcases this with h1 | h2
        · exact h1
        · omega
      · intro _
        rfl
  · rw [happ, if_neg hs]
    refine ⟨by simpa [hshould] using hs, fun hcontra => by simp at hcontra,
      fun _ => ⟨rfl, hstate, rfl⟩, ?_, ?_⟩
    · intro hmf
      rw [hshould] at hs
      simp only [show (false : Bool) = true ↔ False by simp]
      constructor
      · exact fun h => absurd h (by simp)
      · intro hdur
        exact absurd (Or.inr hdur) hs
    · intro hmd
      rw [hshould] at hs
      constructor
      · intro h
        exact absurd h (by simp)
      · intro hsz
        exact absurd (Or.inl hsz) hs

/-- Witness for C2: `maxFileSize = 10`, 8 bytes written, a 5-byte
record pushes the size over the limit and rotation fires and resets. -/
theorem c2_witness :
    (rfaAppend (fun _ => false) c2St 0 c5Tm 5).rotated = true ∧
    (rfaAppend (fun _ => false) c2St 0 c5Tm 5).st.curFileSize = 0 ∧
    (rfaAppend (fun _ => false) c2St 0 c5Tm 5).st.logStartTime = some 0 := by
  have h := c2_append_rotation_trigger (fun _ => false) c2St 0 c5Tm 5 0
    rfl rfl rfl
  have hrot : (rfaAppend (fun _ => false) c2St 0 c5Tm 5).rotated = true :=
    h.1.mpr (Or.inl (by norm_num [c2St]))
  exact ⟨hrot, (h.2.1 hrot).1, (h.2.1 hrot).2.1⟩

/-- C5 as stated is false: when every candidate name is taken the
rotation does fail with the terminal rename error, but the handle is
*not* left as it was — `rotate` closed it (and zeroed the size
counter) before attempting the rename, so a subsequent `Append` fails
with a write error where it succeeded before the attempt. -/
theorem c5_counterexample :
    (rotate (fun _ => true) c5St 0 c5Tm).2 = some RFAErr.renameError ∧
    (rfaAppend (fun _ => true) c5St 0 c5Tm 5).err = none ∧
    (rotate (fun _ => true) c5St 0 c5Tm).1.file ≠ c5St.file ∧
    (rfaAppend (fun _ => true) (rotate (fun _ => true) c5St 0 c5Tm).1 0 c5Tm 5).err =
      some RFAErr.writeError := by
  have hrot := rotate_allTaken (fun _ => true) c5St 0 c5Tm (fun _ => rfl) rfl
  refine ⟨by rw [hrot], by rfl, by rw [hrot]; simp [c5St], by rw [hrot]; rfl⟩

/-- C5 amended: if every candidate rotated filename up to the maximum
serial number already exists, `rotate` fails with a terminal
`RenameError`; however the sink's handle has already been closed and
`curFileSize` reset to 0 by that point, so a subsequent `Append` does
not behave as before the attempt: it fails with a write error on the
closed handle. -/
theorem c5_amended_rotate_exhaustion (fs : List Char → Bool) (st : RFAState)
    (nowNanos nowNanos2 : Int) (nowTm nowTm2 : Tm) (recLen : Nat)
    (hall : ∀ nm, fs nm = true) (hfile : st.file = FileStatus.openFile) :
    (rotate fs st nowNanos nowTm).2 = some RFAErr.renameError ∧
    (rotate fs st nowNanos nowTm).1.file = FileStatus.closedFile ∧
    (rotate fs st nowNanos nowTm).1.curFileSize = 0 ∧
    (rfaAppend fs (rotate fs st nowNanos nowTm).1 nowNanos2 nowTm2 recLen).err =
      some RFAErr.writeError := by
  have hrot := rotate_allTaken fs st nowNanos nowTm hall hfile
  refine ⟨by rw [hrot], by rw [hrot], by rw [hrot], ?_⟩
  rw [hrot]
  rfl

/-- Witness for C5's amended statement at a concrete input. -/
theorem c5_witness :
    (rotate (fun _ => true) c2St 1 c5Tm).2 = some RFAErr.renameError ∧
    (rotate (fun _ => true) c2St 1 c5Tm).1.file = FileStatus.closedFile ∧
    (rfaAppend (fun _ => true) (rotate (fun _ => true) c2St 1 c5Tm).1 2 c5Tm 3).err =
      some RFAErr.writeError := by
  have h := c5_amended_rotate_exhaustion (fun _ => true) c2St 1 2 c5Tm c5Tm 3
    (fun _ => rfl) rfl
  exact ⟨h.1, h.2.1, h.2.2.2⟩

/-! #### Decimal digit lemmas for the rotated-filename round trip -/

theorem isDigitCh_digitChar : ∀ d : Nat, d < 10 → isDigitCh (Nat.digitChar d) = true := by
  decide

theorem digitVal_digitChar : ∀ d : Nat, d < 10 → digitVal (Nat.digitChar d) = d := by
  decide

theorem natToDigitsCore_acc : ∀ (fuel n : Nat) (acc : List Char),
    natToDigitsCore fuel n acc = natToDigitsCore fuel n [] ++ acc := by
  intro fuel
  induction fuel with
  | zero => intro n acc; rfl
  | succ fuel ih =>
    intro n acc
    simp only [natToDigitsCore]
    by_cases h : n < 10
    · simp [h]
    · rw [if_neg h, if_neg h, ih (n / 10) (Nat.digitChar (n % 10) :: acc),
        ih (n / 10) [Nat.digitChar (n % 10)]]
      simp

theorem natToDigitsCore_fuel (n : Nat) : ∀ (f1 f2 : Nat), n < f1 → n < f2 →
    natToDigitsCore f1 n [] = natToDigitsCore f2 n [] := by
  induction n using Nat.strong_induction_on with
  | _ n ih =>
    intro f1 f2 h1 h2
    cases f1 with
    | zero => exact absurd h1 (by omega)
    | succ f1 =>
      cases f2 with
      | zero => exact absurd h2 (by omega)
      | succ f2 =>
        simp only [natToDigitsCore]
        by_cases h : n < 10
        · simp [h]
        · rw [if_neg h, if_neg h]
          rw [natToDigitsCore_acc f1, natToDigitsCore_acc f2]
          rw [ih (n / 10) (by omega) f1 f2 (by omega) (by omega)]

/-- Unfolding equation for `natToDigits`, fuel eliminated. -/
theorem natToDigits_eqn (n : Nat) :
    natToDigits n = if n < 10 then [Nat.digitChar n]
                    else natToDigits (n / 10) ++ [Nat.digitChar (n % 10)] := by
  by_cases h : n < 10
  · rw [if_pos h]
    show natToDigitsCore (n + 1) n [] = _
    simp only [natToDigitsCore]
    rw [if_pos h]
  · rw [if_neg h]
    show natToDigitsCore (n + 1) n [] = _
    simp only [natToDigitsCore]
    rw [if_neg h]
    rw [natToDigitsCore_acc n (n / 10)]
    show _ ++ _ = natToDigitsCore (n / 10 + 1) (n / 10) [] ++ _
    rw [natToDigitsCore_fuel (n / 10) n (n / 10 + 1) (by omega) (by omega)]

theorem natToDigits_ne_nil (n : Nat) : natToDigits n ≠ [] := by
  rw [natToDigits_eqn]
  by_cases h : n < 10 <;> simp [h]

theorem natToDigits_all_digit : ∀ n : Nat, (natToDigits n).all isDigitCh = true := by
  intro n
  induction n using Nat.strong_induction_on with
  | _ n ih =>
    rw [natToDigits_eqn]
    by_cases h : n < 10
    · simp [h, isDigitCh_digitChar n h]
    · rw [if_neg h, List.all_append, ih (n / 10) (by omega)]
      simp [isDigitCh_digitChar (n % 10) (by omega)]

theorem digitsVal_append (l : List Char) (c : Char) :
    digitsVal (l ++ [c]) = digitsVal l * 10 + digitVal c := by
  unfold digitsVal
  rw [List.foldl_append]
  rfl

theorem digitsVal_natToDigits : ∀ n : Nat, digitsVal (natToDigits n) = n := by
  intro n
  induction n using Nat.strong_induction_on with
  | _ n ih =>
    rw [natToDigits_eqn]
    by_cases h : n < 10
    · rw [if_pos h]
      show digitsVal [Nat.digitChar n] = n
      unfold digitsVal
      simp [digitVal_digitChar n h]
    · rw [if_neg h, digitsVal_append, ih (n / 10) (by omega),
        digitVal_digitChar (n % 10) (by omega)]
      omega

theorem natToDigits_two (n : Nat) (h1 : 10 ≤ n) (h2 : n ≤ 99) :
    natToDigits n = [Nat.digitChar (n / 10), Nat.digitChar (n % 10)] := by
  rw [natToDigits_eqn, if_neg (by omega)]
  rw [natToDigits_eqn, if_pos (by omega : n / 10 < 10)]
  rfl

theorem pad2_eq (n : Nat) (h : n ≤ 99) :
    pad2 n = [Nat.digitChar (n / 10), Nat.digitChar (n % 10)] := by
  unfold pad2
  by_cases h10 : n < 10
  · rw [if_pos h10]
    rw [natToDigits_eqn, if_pos h10]
    rw [show n / 10 = 0 by omega, show n % 10 = n by omega]
    rfl
  · rw [if_neg h10]
    exact natToDigits_two n (by omega) h

theorem natToDigits_four (y : Nat) (h1 : 1000 ≤ y) (h2 : y ≤ 9999) :
    natToDigits y = [Nat.digitChar (y / 1000), Nat.digitChar (y / 100 % 10),
                     Nat.digitChar (y / 10 % 10), Nat.digitChar (y % 10)] := by
  rw [natToDigits_eqn, if_neg (by omega)]
  rw [natToDigits_eqn, if_neg (by omega : ¬ y / 10 < 10)]
  rw [natToDigits_two (y / 10 / 10) (by omega) (by omega)]
  rw [show y / 10 / 10 = y / 100 by omega]
  rw [show y / 100 / 10 = y / 1000 by omega]
  simp

/-! #### Lemmas about the regex-match model -/

theorem splitLastDot_noDot : ∀ l : List Char, '.' ∉ l → splitLastDot l = none := by
  intro l
  induction l with
  | nil => intro _; rfl
  | cons c rest ih =>
    intro h
    simp only [List.mem_cons, not_or] at h
    simp only [splitLastDot]
    rw [ih h.2]
    rw [if_neg (fun e => h.1 e.symm)]

theorem splitLastDot_append (r : List Char) (hr : '.' ∉ r) :
    ∀ l : List Char, splitLastDot (l ++ '.' :: r) = some (l, r) := by
  intro l
  induction l with
  | nil =>
    simp only [List.nil_append, splitLastDot]
    rw [splitLastDot_noDot r hr]
    simp
  | cons c rest ih =>
    simp only [List.cons_append, splitLastDot, List.append_eq]
    rw [ih]

theorem takeWhile_digits_append (c : Char) (hc : isDigitCh c = false) :
    ∀ (l r : List Char), l.all isDigitCh = true →
      (l ++ c :: r).takeWhile isDigitCh = l ∧
      (l ++ c :: r).dropWhile isDigitCh = c :: r := by
  intro l
  induction l with
  | nil =>
    intro r _
    refine ⟨?_, ?_⟩
    · simp only [List.nil_append]
      exact List.takeWhile_cons_of_neg (by simp [hc])
    · simp only [List.nil_append]
      exact List.dropWhile_cons_of_neg (by simp [hc])
  | cons a l ih =>
    intro r hall
    simp only [List.all_cons, Bool.and_eq_true] at hall
    obtain ⟨ha, hl⟩ := hall
    refine ⟨?_, ?_⟩
    · simp only [List.cons_append]
      rw [List.takeWhile_cons_of_pos ha, (ih r hl).1]
    · simp only [List.cons_append]
      rw [List.dropWhile_cons_of_pos ha, (ih r hl).2]

theorem noDot_of_all_digit (l : List Char) (h : l.all isDigitCh = true) : '.' ∉ l := by
  intro hmem
  have := List.all_eq_true.mp h _ hmem
  exact absurd this (by decide)

theorem noDot_append {l r : List Char} (hl : '.' ∉ l) (hr : '.' ∉ r) :
    '.' ∉ l ++ r := by
  intro h
  rcases List.mem_append.mp h with h | h
  · exact hl h
  · exact hr h

theorem noDot_cons_append (c : Char) (hc : c ≠ '.') {l r : List Char}
    (hl : '.' ∉ l) (hr : '.' ∉ r) : '.' ∉ l ++ c :: r := by
  intro h
  rcases List.mem_append.mp h with h | h
  · exact hl h
  · rcases List.mem_cons.mp h with he | hm
    · exact hc he.symm
    · exact hr hm

theorem pad2_all_digit (n : Nat) : (pad2 n).all isDigitCh = true := by
  unfold pad2
  by_cases h : n < 10
  · rw [if_pos h]
    rw [List.all_cons, natToDigits_all_digit n]
    decide
  · rw [if_neg h]
    exact natToDigits_all_digit n

theorem daysIn_le_31 (y m : Nat) : daysIn y m ≤ 31 := by
  unfold daysIn
  split_ifs <;> omega

theorem noDot_pair (a b : Char) (ha : isDigitCh a = true) (hb : isDigitCh b = true) :
    '.' ∉ [a, b] := by
  intro h
  rcases List.mem_cons.mp h with he | h
  · subst he; exact absurd ha (by decide)
  · rcases List.mem_cons.mp h with he | h
    · subst he; exact absurd hb (by decide)
    · exact List.not_mem_nil _ h

theorem noDot_quad (a b c d : Char) (ha : isDigitCh a = true) (hb : isDigitCh b = true)
    (hc : isDigitCh c = true) (hd : isDigitCh d = true) : '.' ∉ [a, b, c, d] := by
  intro h
  rcases List.mem_cons.mp h with he | h
  · subst he; exact absurd ha (by decide)
  · rcases List.mem_cons.mp h with he | h
    · subst he; exact absurd hb (by decide)
    · exact noDot_pair c d hc hd h

theorem digitsVal_pair (a b : Char) :
    digitsVal [a, b] = (digitVal a) * 10 + digitVal b := by
  unfold digitsVal
  simp [List.foldl]

theorem digitsVal_quad (a b c d : Char) :
    digitsVal [a, b, c, d] =
      (((digitVal a) * 10 + digitVal b) * 10 + digitVal c) * 10 + digitVal d := by
  unfold digitsVal
  simp [List.foldl]

/-- `regexMatchTail` on the canonical generated shape with a serial
suffix `-ds`. -/
theorem regexMatchTail_canonS (c1 c2 c3 c4 m1 m2 d1 d2 e1 e2 n1 n2 s1 s2 : Char)
    (h1 : isDigitCh c1 = true) (h2 : isDigitCh c2 = true)
    (h3 : isDigitCh c3 = true) (h4 : isDigitCh c4 = true)
    (h10 : (isDigitCh m1 && isDigitCh m2 && isDigitCh d1 && isDigitCh d2 &&
            isDigitCh e1 && isDigitCh e2 && isDigitCh n1 && isDigitCh n2 &&
            isDigitCh s1 && isDigitCh s2) = true)
    (ds : List Char) (hne : ds.isEmpty = false) (hall : ds.all isDigitCh = true) :
    regexMatchTail (c1 :: c2 :: c3 :: c4 :: '-' :: m1 :: m2 :: '-' :: d1 :: d2 :: 'T' ::
        e1 :: e2 :: '-' :: n1 :: n2 :: '-' :: s1 :: s2 :: '-' :: ds) =
      some ([c1, c2, c3, c4] ++
        ['-', m1, m2, '-', d1, d2, 'T', e1, e2, '-', n1, n2, '-', s1, s2], ds) := by
  unfold regexMatchTail
  rw [List.takeWhile_cons_of_pos h1, List.takeWhile_cons_of_pos h2,
    List.takeWhile_cons_of_pos h3, List.takeWhile_cons_of_pos h4,
    List.takeWhile_cons_of_neg (by decide : ¬ (isDigitCh '-' = true))]
  rw [List.dropWhile_cons_of_pos h1, List.dropWhile_cons_of_pos h2,
    List.dropWhile_cons_of_pos h3, List.dropWhile_cons_of_pos h4,
    List.dropWhile_cons_of_neg (by decide : ¬ (isDigitCh '-' = true))]
  simp only [List.isEmpty_cons, Bool.false_eq_true, if_false, h10, if_true, hne, hall]

/-- `regexMatchTail` on the canonical generated shape with no serial
suffix. -/
theorem regexMatchTail_canon0 (c1 c2 c3 c4 m1 m2 d1 d2 e1 e2 n1 n2 s1 s2 : Char)
    (h1 : isDigitCh c1 = true) (h2 : isDigitCh c2 = true)
    (h3 : isDigitCh c3 = true) (h4 : isDigitCh c4 = true)
    (h10 : (isDigitCh m1 && isDigitCh m2 && isDigitCh d1 && isDigitCh d2 &&
            isDigitCh e1 && isDigitCh e2 && isDigitCh n1 && isDigitCh n2 &&
            isDigitCh s1 && isDigitCh s2) = true) :
    regexMatchTail (c1 :: c2 :: c3 :: c4 :: '-' :: m1 :: m2 :: '-' :: d1 :: d2 :: 'T' ::
        e1 :: e2 :: '-' :: n1 :: n2 :: '-' :: s1 :: s2 :: []) =
      some ([c1, c2, c3, c4] ++
        ['-', m1, m2, '-', d1, d2, 'T', e1, e2, '-', n1, n2, '-', s1, s2], []) := by
  unfold regexMatchTail
  rw [List.takeWhile_cons_of_pos h1, List.takeWhile_cons_of_pos h2,
    List.takeWhile_cons_of_pos h3, List.takeWhile_cons_of_pos h4,
    List.takeWhile_cons_of_neg (by decide : ¬ (isDigitCh '-' = true))]
  rw [List.dropWhile_cons_of_pos h1, List.dropWhile_cons_of_pos h2,
    List.dropWhile_cons_of_pos h3, List.dropWhile_cons_of_pos h4,
    List.dropWhile_cons_of_neg (by decide : ¬ (isDigitCh '-' = true))]
  simp only [List.isEmpty_cons, Bool.false_eq_true, if_false, h10, if_true]

/-- `timeParse` on the canonical 19-character layout. -/
theorem timeParse_canonical (c1 c2 c3 c4 m1 m2 d1 d2 e1 e2 n1 n2 s1 s2 : Char)
    (Y MO DA HO MI SE : Nat)
    (hall : (isDigitCh c1 && isDigitCh c2 && isDigitCh c3 && isDigitCh c4 &&
             isDigitCh m1 && isDigitCh m2 && isDigitCh d1 && isDigitCh d2 &&
             isDigitCh e1 && isDigitCh e2 && isDigitCh n1 && isDigitCh n2 &&
             isDigitCh s1 && isDigitCh s2) = true)
    (hY : digitsVal [c1, c2, c3, c4] = Y) (hM : digitsVal [m1, m2] = MO)
    (hD : digitsVal [d1, d2] = DA) (hH : digitsVal [e1, e2] = HO)
    (hN : digitsVal [n1, n2] = MI) (hS : digitsVal [s1, s2] = SE)
    (hr1 : 1 ≤ MO) (hr2 : MO ≤ 12) (hr3 : 1 ≤ DA) (hr4 : DA ≤ daysIn Y MO)
    (hr5 : HO ≤ 23) (hr6 : MI ≤ 59) (hr7 : SE ≤ 59) :
    timeParse (c1 :: c2 :: c3 :: c4 :: '-' :: m1 :: m2 :: '-' :: d1 :: d2 :: 'T' ::
        e1 :: e2 :: '-' :: n1 :: n2 :: '-' :: s1 :: s2 :: []) =
      some ⟨Y, MO, DA, HO, MI, SE⟩ := by
  unfold timeParse
  simp only [hall, hY, hM, hD, hH, hN, hS, if_true]
  rw [if_pos ⟨hr1, hr2, hr3, hr4, hr5, hr6, hr7⟩]

/-- C9 amended: for every base path, every wall-clock time with a
four-digit year (1000–9999) and in-range fields, and every serial,
parsing the generated rotated filename succeeds and recovers exactly
the six wall-clock fields and the serial; the `-N` serial suffix is
present in the generated name iff the serial is positive.  (For years
outside the four-digit range the round trip fails — see the
counterexample — because `%d` prints the year without padding while
`time.Parse`'s `2006` layout demands exactly four digits.) -/
theorem c9_amended_roundtrip (base : List Char) (t : Tm) (serial : Nat)
    (hy1 : 1000 ≤ t.year) (hy2 : t.year ≤ 9999)
    (hm1 : 1 ≤ t.month) (hm2 : t.month ≤ 12)
    (hd1 : 1 ≤ t.day) (hd2 : t.day ≤ daysIn t.year t.month)
    (hh : t.hour ≤ 23) (hmi : t.minute ≤ 59) (hse : t.second ≤ 59) :
    extractRotationTimeFromFilename (rotatedFilename base t serial) =
      some (t, serial) ∧
    (0 < serial → rotatedFilename base t serial =
      rotatedFilename base t 0 ++ '-' :: natToDigits serial) ∧
    (serial = 0 → rotatedFilename base t serial = rotatedFilename base t 0) := by
  obtain ⟨y, mo, da, ho, mi, se⟩ := t
  simp only at hy1 hy2 hm1 hm2 hd1 hd2 hh hmi hse
  have hda31 : da ≤ 31 := le_trans hd2 (daysIn_le_31 y mo)
  refine ⟨?_, ?_, ?_⟩
  · -- digit-character facts for every generated character
    have g1 : isDigitCh (Nat.digitChar (y / 1000)) = true :=
      isDigitCh_digitChar _ (by omega)
    have g2 : isDigitCh (Nat.digitChar (y / 100 % 10)) = true :=
      isDigitCh_digitChar _ (by omega)
    have g3 : isDigitCh (Nat.digitChar (y / 10 % 10)) = true :=
      isDigitCh_digitChar _ (by omega)
    have g4 : isDigitCh (Nat.digitChar (y % 10)) = true :=
      isDigitCh_digitChar _ (by omega)
    have gm1 : isDigitCh (Nat.digitChar (mo / 10)) = true :=
      isDigitCh_digitChar _ (by omega)
    have gm2 : isDigitCh (Nat.digitChar (mo % 10)) = true :=
      isDigitCh_digitChar _ (by omega)
    have gd1 : isDigitCh (Nat.digitChar (da / 10)) = true :=
      isDigitCh_digitChar _ (by omega)
    have gd2 : isDigitCh (Nat.digitChar (da % 10)) = true :=
      isDigitCh_digitChar _ (by omega)
    have gh1 : isDigitCh (Nat.digitChar (ho / 10)) = true :=
      isDigitCh_digitChar _ (by omega)
    have gh2 : isDigitCh (Nat.digitChar (ho % 10)) = true :=
      isDigitCh_digitChar _ (by omega)
    have gn1 : isDigitCh (Nat.digitChar (mi / 10)) = true :=
      isDigitCh_digitChar _ (by omega)
    have gn2 : isDigitCh (Nat.digitChar (mi % 10)) = true :=
      isDigitCh_digitChar _ (by omega)
    have gs1 : isDigitCh (Nat.digitChar (se / 10)) = true :=
      isDigitCh_digitChar _ (by omega)
    have gs2 : isDigitCh (Nat.digitChar (se % 10)) = true :=
      isDigitCh_digitChar _ (by omega)
    have h10 : (isDigitCh (Nat.digitChar (mo / 10)) && isDigitCh (Nat.digitChar (mo % 10)) &&
        isDigitCh (Nat.digitChar (da / 10)) && isDigitCh (Nat.digitChar (da % 10)) &&
        isDigitCh (Nat.digitChar (ho / 10)) && isDigitCh (Nat.digitChar (ho % 10)) &&
        isDigitCh (Nat.digitChar (mi / 10)) && isDigitCh (Nat.digitChar (mi % 10)) &&
        isDigitCh (Nat.digitChar (se / 10)) && isDigitCh (Nat.digitChar (se % 10))) = true := by
      rw [gm1, gm2, gd1, gd2, gh1, gh2, gn1, gn2, gs1, gs2]
      rfl
    have h14 : (isDigitCh (Nat.digitChar (y / 1000)) && isDigitCh (Nat.digitChar (y / 100 % 10)) &&
        isDigitCh (Nat.digitChar (y / 10 % 10)) && isDigitCh (Nat.digitChar (y % 10)) &&
        isDigitCh (Nat.digitChar (mo / 10)) && isDigitCh (Nat.digitChar (mo % 10)) &&
        isDigitCh (Nat.digitChar (da / 10)) && isDigitCh (Nat.digitChar (da % 10)) &&
        isDigitCh (Nat.digitChar (ho / 10)) && isDigitCh (Nat.digitChar (ho % 10)) &&
        isDigitCh (Nat.digitChar (mi / 10)) && isDigitCh (Nat.digitChar (mi % 10)) &&
        isDigitCh (Nat.digitChar (se / 10)) && isDigitCh (Nat.digitChar (se % 10))) = true := by
      rw [g1, g2, g3, g4, gm1, gm2, gd1, gd2, gh1, gh2, gn1, gn2, gs1, gs2]
      rfl
    -- recovered field values
    have ey : digitsVal [Nat.digitChar (y / 1000), Nat.digitChar (y / 100 % 10),
        Nat.digitChar (y / 10 % 10), Nat.digitChar (y % 10)] = y := by
      rw [digitsVal_quad, digitVal_digitChar _ (by omega), digitVal_digitChar _ (by omega),
        digitVal_digitChar _ (by omega), digitVal_digitChar _ (by omega)]
      omega
    have em : digitsVal [Nat.digitChar (mo / 10), Nat.digitChar (mo % 10)] = mo := by
      rw [digitsVal_pair, digitVal_digitChar _ (by omega), digitVal_digitChar _ (by omega)]
      omega
    have ed : digitsVal [Nat.digitChar (da / 10), Nat.digitChar (da % 10)] = da := by
      rw [digitsVal_pair, digitVal_digitChar _ (by omega), digitVal_digitChar _ (by omega)]
      omega
    have eh : digitsVal [Nat.digitChar (ho / 10), Nat.digitChar (ho % 10)] = ho := by
      rw [digitsVal_pair, digitVal_digitChar _ (by omega), digitVal_digitChar _ (by omega)]
      omega
    have en : digitsVal [Nat.digitChar (mi / 10), Nat.digitChar (mi % 10)] = mi := by
      rw [digitsVal_pair, digitVal_digitChar _ (by omega), digitVal_digitChar _ (by omega)]
      omega
    have es : digitsVal [Nat.digitChar (se / 10), Nat.digitChar (se % 10)] = se := by
      rw [digitsVal_pair, digitVal_digitChar _ (by omega), digitVal_digitChar _ (by omega)]
      omega
    have hserialPart : '.' ∉ (if 0 < serial then '-' :: natToDigits serial else []) := by
      by_cases hs0 : 0 < serial
      · rw [if_pos hs0]
        intro hmem
        rcases List.mem_cons.mp hmem with he | hm
        · exact absurd he (by decide)
        · exact noDot_of_all_digit _ (natToDigits_all_digit serial) hm
      · rw [if_neg hs0]
        exact List.not_mem_nil _
    unfold extractRotationTimeFromFilename rotatedFilename
    rw [natToDigits_four y hy1 hy2, pad2_eq mo (by omega), pad2_eq da (by omega),
      pad2_eq ho (by omega), pad2_eq mi (by omega), pad2_eq se (by omega)]
    have hdot : '.' ∉ ([Nat.digitChar (y / 1000), Nat.digitChar (y / 100 % 10),
        Nat.digitChar (y / 10 % 10), Nat.digitChar (y % 10)] ++ '-' ::
        ([Nat.digitChar (mo / 10), Nat.digitChar (mo % 10)] ++ '-' ::
          ([Nat.digitChar (da / 10), Nat.digitChar (da % 10)] ++ 'T' ::
            ([Nat.digitChar (ho / 10), Nat.digitChar (ho % 10)] ++ '-' ::
              ([Nat.digitChar (mi / 10), Nat.digitChar (mi % 10)] ++ '-' ::
                ([Nat.digitChar (se / 10), Nat.digitChar (se % 10)] ++
                  (if 0 < serial then '-' :: natToDigits serial else []))))))) := by
      refine noDot_cons_append '-' (by decide) (noDot_quad _ _ _ _ g1 g2 g3 g4) ?_
      refine noDot_cons_append '-' (by decide) (noDot_pair _ _ gm1 gm2) ?_
      refine noDot_cons_append 'T' (by decide) (noDot_pair _ _ gd1 gd2) ?_
      refine noDot_cons_append '-' (by decide) (noDot_pair _ _ gh1 gh2) ?_
      refine noDot_cons_append '-' (by decide) (noDot_pair _ _ gn1 gn2) ?_
      exact noDot_append (noDot_pair _ _ gs1 gs2) hserialPart
    rw [splitLastDot_append _ hdot base]
    by_cases hs0 : 0 < serial
    · rw [if_pos hs0]
      have hserne : (natToDigits serial).isEmpty = false := by
        cases hn : natToDigits serial with
        | nil => exact absurd hn (natToDigits_ne_nil serial)
        | cons a l => rfl
      simp only [List.cons_append, List.nil_append]
      rw [regexMatchTail_canonS _ _ _ _ _ _ _ _ _ _ _ _ _ _ g1 g2 g3 g4 h10
        (natToDigits serial) hserne (natToDigits_all_digit serial)]
      simp only [List.cons_append, List.nil_append]
      rw [timeParse_canonical _ _ _ _ _ _ _ _ _ _ _ _ _ _ y mo da ho mi se h14
        ey em ed eh en es hm1 hm2 hd1 hd2 hh hmi hse]
      rw [digitsVal_natToDigits serial]
    · rw [if_neg hs0]
      simp only [List.cons_append, List.nil_append, List.append_nil]
      rw [regexMatchTail_canon0 _ _ _ _ _ _ _ _ _ _ _ _ _ _ g1 g2 g3 g4 h10]
      simp only [List.cons_append, List.nil_append]
      rw [timeParse_canonical _ _ _ _ _ _ _ _ _ _ _ _ _ _ y mo da ho mi se h14
        ey em ed eh en es hm1 hm2 hd1 hd2 hh hmi hse]
      have : serial = 0 := by omega
      subst this
      rfl
  · intro hs0
    unfold rotatedFilename
    rw [if_pos hs0, if_neg (by omega : ¬ (0 : Nat) < 0)]
    simp
  · intro hs0
    subst hs0
    rfl

/-- C9 as stated is false for times outside the four-digit-year range:
`%d` prints the year 999 as three digits, the regex still matches, but
`time.Parse`'s `2006` layout consumes four characters (`"999-"`) and
fails, so the round trip returns no descriptor at all. -/
theorem c9_counterexample :
    extractRotationTimeFromFilename
      (rotatedFilename ['l', 'o', 'g'] ⟨999, 1, 2, 3, 4, 5⟩ 0) = none := by
  decide

/-- Witness for C9's amended statement: 2020-01-02T03-04-05, serial 7. -/
theorem c9_witness :
    extractRotationTimeFromFilename (rotatedFilename ['l', 'o', 'g'] c5Tm 7) =
      some (c5Tm, 7) :=
  (c9_amended_roundtrip ['l', 'o', 'g'] c5Tm 7 (by decide) (by decide) (by decide)
    (by decide) (by decide) (by decide) (by decide) (by decide) (by decide)).1

/-- Witness for C10 at concrete inputs. -/
theorem c10_witness :
    (enqueueGo 2 recordEvict (7 : Nat) 2 ([1, 2], [])).isSome ∧
    enqueueGo 0 recordEvict (7 : Nat) 5 ([], []) = none := by
  exact ⟨(c10_enqueue_termination (α := Nat) (σ := List Nat)).1
            2 recordEvict 7 [1, 2] [] (by decide) (by decide),
         (c10_enqueue_termination (α := Nat) (σ := List Nat)).2
            recordEvict 7 [] 5⟩

end Slogger
